import Mathlib

/-!
Verification of the newsletter-digest article pipeline
(`article_processor.py`, `app.py`, `supabase_db.py`).

The Python code is shallowly embedded: strings are `String`, Python floats
are `ℚ` (a float literal `0.6` becomes the rational `mkRat 6 10`), Python
`list` is `List`, and Python dictionaries are association lists.  String
primitives (`lower`, `split`, `strip`, slicing, `in`) are re-implemented
by structural recursion over the character list so that every definition
evaluates inside the kernel.  The sklearn TF-IDF cosine similarity
(`ArticleProcessor.calculate_similarity`) is not reproducible and is
abstracted as a function field of the processor; every theorem about
deduplication holds for an arbitrary such function.
-/

namespace NewsDigest

/-- Python `needle in haystack` on strings: contiguous substring test. -/
def strContains (haystack needle : String) : Bool :=
  decide (needle.data <:+: haystack.data)

/-- Python `str.lower()` (ASCII case): lowercase every character.
Same function as `String.toLower`, restated by structural recursion. -/
def pyLower (s : String) : String :=
  ⟨s.data.map Char.toLower⟩

/-- Python `str.strip()`: drop leading and trailing whitespace. -/
def pyStrip (s : String) : String :=
  ⟨((s.data.dropWhile Char.isWhitespace).reverse.dropWhile Char.isWhitespace).reverse⟩

/-- Python `s[:n]` on strings: the first `n` characters. -/
def pyTake (s : String) (n : Nat) : String :=
  ⟨s.data.take n⟩

/-- Helper for `pySplit`: split a character list at whitespace runs,
`acc` holding the current word reversed. -/
def splitWsAux : List Char → List Char → List String
  | [], acc => if acc.isEmpty then [] else [String.mk acc.reverse]
  | c :: cs, acc =>
    if c.isWhitespace then
      if acc.isEmpty then splitWsAux cs []
      else String.mk acc.reverse :: splitWsAux cs []
    else splitWsAux cs (c :: acc)

/-- Python `str.split()` with no argument: split on whitespace runs,
dropping empty pieces. -/
def pySplit (s : String) : List String :=
  splitWsAux s.data []

/-- One article record, as built by `ArticleProcessor.extract_article_content`
and decorated by `extract_articles_from_newsletters`. -/
structure Article where
  url : String
  title : String
  text : String
  extraction_success : Bool
  newsletter_sender : String := ""
  newsletter_subject : String := ""
deriving Repr, DecidableEq

/-- One newsletter record as consumed by
`extract_articles_from_newsletters`: sender, subject and the extracted URLs. -/
structure Newsletter where
  sender : String
  subject : String
  urls : List String
deriving Repr, DecidableEq

/-- The stop-word set removed from titles in
`ArticleProcessor.title_similarity`. -/
def title_stop_words : Finset String :=
  {"the", "a", "an", "in", "on", "at", "to", "for", "of", "and", "or", "but"}

/-- `ArticleProcessor.title_similarity`: lowercase, whitespace-tokenize,
drop stop words, return the Jaccard similarity of the two word sets
(0 when either title or either remaining word set is empty).
`mkRat inter union` is the rational `inter / union`. -/
def title_similarity (title1 title2 : String) : ℚ :=
  if title1 = "" ∨ title2 = "" then 0
  else
    let words1 := (pySplit (pyLower title1)).toFinset \ title_stop_words
    let words2 := (pySplit (pyLower title2)).toFinset \ title_stop_words
    if words1 = ∅ ∨ words2 = ∅ then 0
    else
      let inter := (words1 ∩ words2).card
      let union := (words1 ∪ words2).card
      if 0 < union then mkRat inter union else 0

/-- The article processor.  `similarity_threshold` is the constructor
argument (`0.7` by default, and in `app.py`).  `calculate_similarity`
abstracts the TF-IDF cosine similarity of two body texts, which depends
on sklearn internals; every theorem below holds for an arbitrary such
function. -/
structure ArticleProcessor where
  similarity_threshold : ℚ
  calculate_similarity : String → String → ℚ

/-- The duplicate test performed by the inner loop of
`ArticleProcessor.deduplicate_articles` when comparing the incoming
`article` against one already-retained `unique_article`: title Jaccard
similarity above `0.6` (`mkRat 6 10`) alone suffices; above `0.3`
(`mkRat 3 10`) the body-text similarity is additionally compared against
the configured threshold. -/
def isDuplicateOf (p : ArticleProcessor) (article unique_article : Article) : Bool :=
  let title_sim := title_similarity article.title unique_article.title
  if title_sim > mkRat 6 10 then true
  else if title_sim > mkRat 3 10 then
    decide (p.calculate_similarity article.text unique_article.text > p.similarity_threshold)
  else false

/-- The main loop of `ArticleProcessor.deduplicate_articles`: scan the
remaining articles, appending each one to the running unique list unless
some already-retained article flags it as a duplicate (the Python `for`
with `break` over `unique_articles` is the `List.any`). -/
def dedupLoop (p : ArticleProcessor) : List Article → List Article → List Article
  | unique_articles, [] => unique_articles
  | unique_articles, article :: rest =>
    if unique_articles.any (fun u => isDuplicateOf p article u) then
      dedupLoop p unique_articles rest
    else
      dedupLoop p (unique_articles ++ [article]) rest

/-- `ArticleProcessor.deduplicate_articles`: greedy near-duplicate removal,
each incoming article compared against the already-retained unique list. -/
def deduplicate_articles (p : ArticleProcessor) (articles : List Article) : List Article :=
  dedupLoop p [] articles

end NewsDigest

namespace NewsDigest

/-! ### Helper lemmas about the deduplication loop -/

/-- The accumulated unique list is only ever extended. -/
theorem dedupLoop_extends (p : ArticleProcessor) :
    ∀ (L U : List Article), U <+: dedupLoop p U L := by
  intro L
  induction L with
  | nil => intro U; exact List.prefix_rfl
  | cons a rest ih =>
    intro U
    rw [dedupLoop]
    by_cases h : U.any (fun u => isDuplicateOf p a u) = true
    · simpa [h] using ih U
    · simp only [h, if_false]
      exact (List.prefix_append U [a]).trans (ih (U ++ [a]))

/-- The loop result is a subsequence of accumulator plus input. -/
theorem dedupLoop_sublist (p : ArticleProcessor) :
    ∀ (L U : List Article), List.Sublist (dedupLoop p U L) (U ++ L) := by
  intro L
  induction L with
  | nil => intro U; simp [dedupLoop]
  | cons a rest ih =>
    intro U
    rw [dedupLoop]
    by_cases h : U.any (fun u => isDuplicateOf p a u) = true
    · simp only [h, if_true]
      exact (ih U).trans (List.Sublist.append_left (List.sublist_cons_self a rest) U)
    · simp only [h, if_false]
      have := ih (U ++ [a])
      simpa using this
  
/-- Processing a concatenation processes the pieces in order. -/
theorem dedupLoop_append (p : ArticleProcessor) :
    ∀ (L1 L2 U : List Article),
      dedupLoop p U (L1 ++ L2) = dedupLoop p (dedupLoop p U L1) L2 := by
  intro L1
  induction L1 with
  | nil => intro L2 U; simp [dedupLoop]
  | cons a rest ih =>
    intro L2 U
    rw [List.cons_append, dedupLoop, dedupLoop]
    by_cases h : U.any (fun u => isDuplicateOf p a u) = true
    · simp only [h, if_true]; exact ih L2 U
    · simp only [h, if_false]; exact ih L2 (U ++ [a])

/-- The relation that the loop maintains between retained articles:
a later-retained article is not flagged as a duplicate of an
earlier-retained one. -/
def NotDupOfEarlier (p : ArticleProcessor) (earlier later : Article) : Prop :=
  isDuplicateOf p later earlier = false

/-- The loop preserves the pairwise not-a-duplicate invariant on the
retained list. -/
theorem dedupLoop_pairwise (p : ArticleProcessor) :
    ∀ (L U : List Article), U.Pairwise (NotDupOfEarlier p) →
      (dedupLoop p U L).Pairwise (NotDupOfEarlier p) := by
  intro L
  induction L with
  | nil => intro U hU; simpa [dedupLoop] using hU
  | cons a rest ih =>
    intro U hU
    rw [dedupLoop]
    by_cases h : U.any (fun u => isDuplicateOf p a u) = true
    · simp only [h, if_true]; exact ih U hU
    · simp only [h, if_false]
      refine ih (U ++ [a]) ?_
      rw [List.pairwise_append]
      refine ⟨hU, List.pairwise_singleton _ _, ?_⟩
      intro u hu b hb
      rw [List.mem_singleton] at hb
      subst hb
      have := (List.any_eq_false).mp (Bool.not_eq_true _ ▸ h) u hu
      simpa [NotDupOfEarlier] using this

/-- A list already satisfying the pairwise invariant passes through the
loop unchanged. -/
theorem dedupLoop_eq_of_pairwise (p : ArticleProcessor) :
    ∀ (M U : List Article), (U ++ M).Pairwise (NotDupOfEarlier p) →
      dedupLoop p U M = U ++ M := by
  intro M
  induction M with
  | nil => intro U _; simp [dedupLoop]
  | cons a rest ih =>
    intro U hUM
    rw [dedupLoop]
    have hnot : U.any (fun u => isDuplicateOf p a u) = false := by
      rw [List.any_eq_false]
      intro u hu
      rw [List.pairwise_append] at hUM
      have := hUM.2.2 u hu a (List.mem_cons_self a rest)
      simpa [NotDupOfEarlier] using this
    simp only [hnot, Bool.false_eq_true, if_false]
    have : (U ++ [a]) ++ rest = U ++ a :: rest := by simp
    rw [ih (U ++ [a]) (by rw [this]; exact hUM)]
    simp

end NewsDigest

namespace NewsDigest

/-- `title_similarity` is symmetric (Jaccard similarity of word sets). -/
theorem title_similarity_comm (t1 t2 : String) :
    title_similarity t1 t2 = title_similarity t2 t1 := by
  unfold title_similarity
  by_cases h1 : t1 = "" <;> by_cases h2 : t2 = "" <;>
    simp [h1, h2, Finset.inter_comm, Finset.union_comm, or_comm]

/-- Unfolding of a failed duplicate test into the two failed checks. -/
theorem isDuplicateOf_eq_false_iff (p : ArticleProcessor) (a u : Article) :
    isDuplicateOf p a u = false ↔
      ¬ (title_similarity a.title u.title > mkRat 6 10) ∧
      ¬ (title_similarity a.title u.title > mkRat 3 10 ∧
         p.calculate_similarity a.text u.text > p.similarity_threshold) := by
  unfold isDuplicateOf
  by_cases h6 : title_similarity a.title u.title > mkRat 6 10
  · simp [h6]
  · by_cases h3 : title_similarity a.title u.title > mkRat 3 10
    · simp [h6, h3]
    · simp [h6, h3]

/-- The processor used for concrete check instances: the default threshold
`0.7` from `app.py`, with a trivially symmetric content-similarity
function. -/
def procForTests : ArticleProcessor := ⟨mkRat 7 10, fun _ _ => 0⟩

/-- A concrete article used in check instances. -/
def articleA : Article :=
  { url := "u1", title := "alpha beta", text := "talk about alpha", extraction_success := true }

/-- A second concrete article with a title disjoint from `articleA`. -/
def articleB : Article :=
  { url := "u2", title := "gamma delta", text := "talk about gamma", extraction_success := true }

/-- C1: after `deduplicate_articles`, no two articles of the returned list
have title similarity above 0.6, nor simultaneously title similarity above
0.3 and content similarity above the configured threshold. -/
theorem dedup_no_near_duplicates (p : ArticleProcessor)
    (hsym : ∀ s t : String, p.calculate_similarity s t = p.calculate_similarity t s)
    (articles : List Article) (a b : Article)
    (ha : a ∈ deduplicate_articles p articles)
    (hb : b ∈ deduplicate_articles p articles) (hab : a ≠ b) :
    ¬ (title_similarity a.title b.title > mkRat 6 10) ∧
    ¬ (title_similarity a.title b.title > mkRat 3 10 ∧
       p.calculate_similarity a.text b.text > p.similarity_threshold) := by
  have hpw : (deduplicate_articles p articles).Pairwise (NotDupOfEarlier p) :=
    dedupLoop_pairwise p articles [] List.Pairwise.nil
  have hS : (deduplicate_articles p articles).Pairwise
      (fun u v => isDuplicateOf p v u = false ∨ isDuplicateOf p u v = false) :=
    hpw.imp (fun h => Or.inl h)
  have hsymm : Symmetric
      (fun u v : Article => isDuplicateOf p v u = false ∨ isDuplicateOf p u v = false) :=
    fun _ _ hxy => hxy.symm
  have key := List.Pairwise.forall hsymm hS ha hb hab
  rcases key with h | h
  · rw [isDuplicateOf_eq_false_iff] at h
    refine ⟨fun hgt => h.1 ?_, fun hand => h.2 ?_⟩
    · rwa [title_similarity_comm b.title a.title]
    · obtain ⟨hgt, hcs⟩ := hand
      refine ⟨by rwa [title_similarity_comm b.title a.title], ?_⟩
      rw [hsym b.text a.text]
      exact hcs
  · rw [isDuplicateOf_eq_false_iff] at h
    exact h

/-- Witness for C1 at a concrete input. -/
theorem dedup_no_near_duplicates_witness :
    ¬ (title_similarity articleA.title articleB.title > mkRat 6 10) ∧
    ¬ (title_similarity articleA.title articleB.title > mkRat 3 10 ∧
       procForTests.calculate_similarity articleA.text articleB.text >
         procForTests.similarity_threshold) :=
  dedup_no_near_duplicates procForTests (fun _ _ => rfl) [articleA, articleB]
    articleA articleB (by decide) (by decide) (by decide)

/-- C2: deduplication is idempotent — applying it to its own output
returns that output unchanged. -/
theorem deduplicate_articles_idempotent (p : ArticleProcessor) (articles : List Article) :
    deduplicate_articles p (deduplicate_articles p articles) =
      deduplicate_articles p articles := by
  have hpw : (deduplicate_articles p articles).Pairwise (NotDupOfEarlier p) :=
    dedupLoop_pairwise p articles [] List.Pairwise.nil
  have h := dedupLoop_eq_of_pairwise p (deduplicate_articles p articles) []
    (by simpa using hpw)
  simpa [deduplicate_articles] using h

end NewsDigest

namespace NewsDigest

/-- C3: the output of `deduplicate_articles` is a subsequence of the input
(first-seen order preserved), processing a prefix of the input yields a
prefix of the output, and at every input position the article is either
dropped because it duplicates an article retained from strictly earlier
input — that earlier article, the cluster's first occurrence, being the
retained representative — or it is retained in its first-seen position. -/
theorem dedup_subsequence_first_representative (p : ArticleProcessor)
    (articles : List Article) :
    List.Sublist (deduplicate_articles p articles) articles ∧
    (∀ L1 L2, articles = L1 ++ L2 →
       deduplicate_articles p L1 <+: deduplicate_articles p articles) ∧
    (∀ L1 a L2, articles = L1 ++ a :: L2 →
       ((∃ u ∈ deduplicate_articles p L1,
           u ∈ deduplicate_articles p articles ∧ isDuplicateOf p a u = true) ∧
         deduplicate_articles p articles = deduplicate_articles p (L1 ++ L2)) ∨
       ((∀ u ∈ deduplicate_articles p L1, isDuplicateOf p a u = false) ∧
         deduplicate_articles p L1 ++ [a] <+: deduplicate_articles p articles)) := by
  refine ⟨by simpa using dedupLoop_sublist p articles [], ?_, ?_⟩
  · intro L1 L2 hL
    subst hL
    unfold deduplicate_articles
    rw [dedupLoop_append]
    exact dedupLoop_extends p L2 (dedupLoop p [] L1)
  · intro L1 a L2 hL
    subst hL
    unfold deduplicate_articles
    rw [dedupLoop_append p L1 (a :: L2) [], dedupLoop]
    by_cases h : (dedupLoop p [] L1).any (fun u => isDuplicateOf p a u) = true
    · left
      simp only [h, if_true]
      obtain ⟨u, hu, hdup⟩ := List.any_eq_true.mp h
      refine ⟨⟨u, hu, (dedupLoop_extends p L2 (dedupLoop p [] L1)).subset hu,
        by simpa using hdup⟩, ?_⟩
      rw [dedupLoop_append p L1 L2 []]
    · right
      simp only [h, if_false]
      constructor
      · intro u hu
        exact Bool.not_eq_true _ ▸ List.any_eq_false.mp (Bool.not_eq_true _ ▸ h) u hu
      · exact dedupLoop_extends p L2 (dedupLoop p [] L1 ++ [a])

/-- Witness for C3 at a concrete input. -/
theorem dedup_subsequence_first_representative_witness :
    List.Sublist (deduplicate_articles procForTests [articleA, articleB])
      [articleA, articleB] ∧
    (deduplicate_articles procForTests [articleA] <+:
       deduplicate_articles procForTests [articleA, articleB]) ∧
    (((∃ u ∈ deduplicate_articles procForTests [articleA],
         u ∈ deduplicate_articles procForTests [articleA, articleB] ∧
           isDuplicateOf procForTests articleB u = true) ∧
       deduplicate_articles procForTests [articleA, articleB] =
         deduplicate_articles procForTests [articleA]) ∨
     ((∀ u ∈ deduplicate_articles procForTests [articleA],
         isDuplicateOf procForTests articleB u = false) ∧
       deduplicate_articles procForTests [articleA] ++ [articleB] <+:
         deduplicate_articles procForTests [articleA, articleB])) :=
  ⟨(dedup_subsequence_first_representative procForTests [articleA, articleB]).1,
   (dedup_subsequence_first_representative procForTests [articleA, articleB]).2.1
     [articleA] [articleB] rfl,
   by
     have h := (dedup_subsequence_first_representative procForTests
       [articleA, articleB]).2.2 [articleA] articleB [] rfl
     simpa using h⟩

/-- C10: on a non-empty input, `deduplicate_articles` returns a non-empty
list whose first element is the first input article (the first article is
compared against an empty unique list, so it is always appended); the
pipeline's later "No unique articles" early-halt branch in
`process_and_send_digest` can therefore never fire on a non-empty list. -/
theorem dedup_nonempty_head (p : ArticleProcessor) (articles : List Article)
    (h : articles ≠ []) :
    deduplicate_articles p articles ≠ [] ∧
    (deduplicate_articles p articles).head? = articles.head? := by
  obtain ⟨a, rest, rfl⟩ := List.exists_cons_of_ne_nil h
  unfold deduplicate_articles
  rw [dedupLoop]
  simp only [List.any_nil, Bool.false_eq_true, if_false]
  obtain ⟨t, ht⟩ := dedupLoop_extends p rest ([] ++ [a])
  rw [← ht]
  simp

/-- Witness for C10 at a concrete input. -/
theorem dedup_nonempty_head_witness :
    deduplicate_articles procForTests [articleA] ≠ [] ∧
    (deduplicate_articles procForTests [articleA]).head? =
      ([articleA] : List Article).head? :=
  dedup_nonempty_head procForTests [articleA] (by decide)

end NewsDigest

namespace NewsDigest

/-! ### Article fetching (`ArticleProcessor.extract_article_content`) -/

/-- The outcome of the HTTP GET and HTML parse inside
`extract_article_content`, abstracting the network and BeautifulSoup:
either some step raised (`failure`, carrying whatever title had already
been stored), or the page was parsed, yielding the optional `<title>`
tag text and the concatenated paragraph text `text_content`. -/
inductive FetchOutcome where
  | failure (partial_title : String)
  | fetched (title_tag : Option String) (text_content : String)
deriving Repr, DecidableEq

/-- The concatenated paragraph text accumulated by the parse, before the
final `strip()` — empty when the fetch raised. -/
def rawTextContent : FetchOutcome → String
  | .failure _ => ""
  | .fetched _ text_content => text_content

/-- `ArticleProcessor.extract_article_content`: build the article record
from the fetch outcome.  On success the title is the stripped `<title>`
text (empty when absent), the text is the stripped paragraph text, and
`extraction_success` is the Python truthiness `bool(text_content)` of the
text before stripping.  On an exception the defaults survive. -/
def extract_article_content (url : String) (r : FetchOutcome) : Article :=
  match r with
  | .failure partial_title =>
    { url := url, title := partial_title, text := "", extraction_success := false }
  | .fetched title_tag text_content =>
    { url := url
      title := match title_tag with | some t => pyStrip t | none => ""
      text := pyStrip text_content
      extraction_success := decide (text_content ≠ "") }

/-- Counterexample to C4: when the concatenated paragraph text is
whitespace-only, `extraction_success` is computed from the unstripped
text (`bool(text_content)`) and is `true`, while the stored `text` field
is the stripped, hence empty, string. -/
theorem extract_success_iff_text_counterexample :
    ¬ ((extract_article_content "u" (.fetched none " ")).extraction_success = true ↔
       (extract_article_content "u" (.fetched none " ")).text ≠ "") := by
  decide

/-- C4 (amended): `extraction_success` is true iff the raw concatenated
paragraph text — before the final `strip()` — is non-empty.  (When that
raw text is whitespace-only, success is reported with an empty `text`.) -/
theorem extract_success_iff_raw_text (url : String) (r : FetchOutcome) :
    (extract_article_content url r).extraction_success = true ↔
      rawTextContent r ≠ "" := by
  cases r with
  | failure t => simp [extract_article_content, rawTextContent]
  | fetched t c => simp [extract_article_content, rawTextContent]

/-! ### URL domain normalization (`urllib.parse` + `app.py`) -/

/-- Take characters up to the first `/`, `?` or `#`: the extent of the
network-location component after the scheme separator. -/
def netlocUntilDelim : List Char → List Char
  | [] => []
  | c :: cs => if c = '/' ∨ c = '?' ∨ c = '#' then [] else c :: netlocUntilDelim cs

/-- The characters following the first `://`, if any. -/
def afterSchemeMarker : List Char → Option (List Char)
  | [] => none
  | ':' :: '/' :: '/' :: rest => some rest
  | _ :: cs => afterSchemeMarker cs

/-- Modelled on `urllib.parse.urlparse(url).netloc` for the common shapes
of article URLs: the host part after `scheme://` (or a leading `//`), up
to the next `/`, `?` or `#`; empty when the URL has no network location. -/
def urlparse_netloc (url : String) : String :=
  match afterSchemeMarker url.data with
  | some rest => ⟨netlocUntilDelim rest⟩
  | none =>
    if decide (['/', '/'] <+: url.data) then ⟨netlocUntilDelim (url.data.drop 2)⟩
    else ""

/-- The domain normalization performed in `app.py` (both in
`api_mark_junk` and in the junk-filter stage): the URL's network
location, lowercased, with one leading `www.` stripped. -/
def normalized_domain (url : String) : String :=
  let domain := pyLower (urlparse_netloc url)
  if decide ("www.".data <+: domain.data) then ⟨domain.data.drop 4⟩ else domain

/-! ### The mark-as-junk endpoint (`api_mark_junk`) -/

/-- `api_mark_junk`: the `(pattern, pattern_type)` pair persisted through
`SupabaseDB.add_junk_filter` for a mark-as-junk request carrying `url`
and `title`; `none` when the request is rejected (missing URL, or no
domain extractable).  `add_junk_filter` lowercases the pattern, which the
normalized domain already is. -/
def api_mark_junk_pattern (url title : String) : Option (String × String) :=
  if url = "" then none
  else
    let domain := normalized_domain url
    if domain = "" then none
    else some (domain, "domain")

/-- The significant words of a title according to the spec wording:
lowercased words that are not stop words and are longer than 3
characters. -/
def significant_words (title : String) : List String :=
  (pySplit (pyLower title)).filter
    (fun w => decide (w ∉ title_stop_words) && decide (w.length > 3))

/-- Modelled from the spec: the pattern C5 says the mark-as-junk action
derives — the first two significant words of the title, one if only one
exists, the first two raw title words if none, the normalized domain only
for an empty title.  No such derivation exists in the source. -/
def junk_pattern_spec_model (url title : String) : String :=
  match significant_words title with
  | w1 :: w2 :: _ => w1 ++ " " ++ w2
  | [w1] => w1
  | [] =>
    match pySplit title with
    | r1 :: r2 :: _ => r1 ++ " " ++ r2
    | [r1] => r1
    | [] => normalized_domain url

/-- Counterexample to C5: for an article whose title has two significant
words, the claim says the persisted pattern is that two-word phrase, but
`api_mark_junk` persists the normalized domain with type `domain`. -/
theorem api_mark_junk_counterexample :
    api_mark_junk_pattern "https://www.techcrunch.com/2024/x"
        "Quantum Computers Break Records" = some ("techcrunch.com", "domain") ∧
    junk_pattern_spec_model "https://www.techcrunch.com/2024/x"
        "Quantum Computers Break Records" = "quantum computers" ∧
    ("techcrunch.com" : String) ≠ "quantum computers" := by
  decide

/-- C5 (amended): the mark-as-junk action always derives the article's
normalized domain — lowercased URL host with a leading `www.`
stripped — and persists it with pattern type `domain`, independently of
the title; no title phrase is ever derived. -/
theorem api_mark_junk_domain_pattern (url title : String)
    (hurl : url ≠ "") (hdom : normalized_domain url ≠ "") :
    api_mark_junk_pattern url title = some (normalized_domain url, "domain") := by
  unfold api_mark_junk_pattern
  simp [hurl, hdom]

/-- Witness for the amended C5 at a concrete input. -/
theorem api_mark_junk_domain_pattern_witness :
    api_mark_junk_pattern "https://www.techcrunch.com/2024/x"
        "Quantum Computers Break Records" =
      some (normalized_domain "https://www.techcrunch.com/2024/x", "domain") :=
  api_mark_junk_domain_pattern "https://www.techcrunch.com/2024/x"
    "Quantum Computers Break Records" (by decide) (by decide)

end NewsDigest

namespace NewsDigest

/-! ### Source-preference ranker (`app.py` Step 3.6) -/

/-- `get_source_score` from Step 3.6: look the article's lowercased,
stripped `newsletter_sender` up in the source-score mapping (an
association list standing for the Python dict), defaulting to 0. -/
def source_score (source_scores : List (String × Int)) (a : Article) : Int :=
  match source_scores.find?
      (fun kv => decide (kv.1 = pyStrip (pyLower a.newsletter_sender))) with
  | some kv => kv.2
  | none => 0

/-- Stable descending insertion: place `a` before the first element whose
key it is greater than or equal to, so that an earlier-input article with
an equal key stays first. -/
def insertByScoreDesc (key : Article → Int) (a : Article) : List Article → List Article
  | [] => [a]
  | b :: bs =>
    if key a ≥ key b then a :: b :: bs else b :: insertByScoreDesc key a bs

/-- Stable descending insertion sort by key — the unique stable sort, so
it embeds Python's stable `list.sort(key=..., reverse=True)`. -/
def sortByScoreDesc (key : Article → Int) : List Article → List Article
  | [] => []
  | a :: rest => insertByScoreDesc key a (sortByScoreDesc key rest)

/-- Step 3.6 of `process_and_send_digest`: when the score mapping is
non-empty, drop articles of senders with score ≤ −3, then stable-sort
the rest by descending sender score. -/
def apply_vote_learning (source_scores : List (String × Int))
    (articles : List Article) : List Article :=
  if source_scores.isEmpty then articles
  else
    sortByScoreDesc (source_score source_scores)
      (articles.filter (fun a => decide (source_score source_scores a > -3)))

/-- The insertion is a permutation of consing. -/
theorem insertByScoreDesc_perm (key : Article → Int) (a : Article) :
    ∀ l : List Article, (insertByScoreDesc key a l).Perm (a :: l) := by
  intro l
  induction l with
  | nil => simp [insertByScoreDesc]
  | cons b bs ih =>
    rw [insertByScoreDesc]
    by_cases h : key a ≥ key b
    · simp [h]
    · simp only [h, if_false]
      exact (ih.cons b).trans (List.Perm.swap a b bs)

/-- The sort is a permutation of its input. -/
theorem sortByScoreDesc_perm (key : Article → Int) :
    ∀ l : List Article, (sortByScoreDesc key l).Perm l := by
  intro l
  induction l with
  | nil => simp [sortByScoreDesc]
  | cons a rest ih =>
    exact (insertByScoreDesc_perm key a (sortByScoreDesc key rest)).trans (ih.cons a)

/-- The insertion preserves descending sortedness. -/
theorem insertByScoreDesc_pairwise (key : Article → Int) (a : Article) :
    ∀ l : List Article, l.Pairwise (fun x y => key y ≤ key x) →
      (insertByScoreDesc key a l).Pairwise (fun x y => key y ≤ key x) := by
  intro l
  induction l with
  | nil => intro _; simp [insertByScoreDesc]
  | cons b bs ih =>
    intro hl
    rw [List.pairwise_cons] at hl
    rw [insertByScoreDesc]
    by_cases h : key a ≥ key b
    · rw [if_pos h, List.pairwise_cons]
      refine ⟨?_, List.pairwise_cons.mpr hl⟩
      intro x hx
      rcases List.mem_cons.mp hx with rfl | hx
      · exact h
      · exact le_trans (hl.1 x hx) h
    · rw [if_neg h, List.pairwise_cons]
      refine ⟨?_, ih hl.2⟩
      intro x hx
      have hx' := (insertByScoreDesc_perm key a bs).mem_iff.mp hx
      rcases List.mem_cons.mp hx' with rfl | hx'
      · exact le_of_lt (lt_of_not_ge h)
      · exact hl.1 x hx'

/-- The sort output is descending in the key. -/
theorem sortByScoreDesc_pairwise (key : Article → Int) :
    ∀ l : List Article,
      (sortByScoreDesc key l).Pairwise (fun x y => key y ≤ key x) := by
  intro l
  induction l with
  | nil => simp [sortByScoreDesc]
  | cons a rest ih => exact insertByScoreDesc_pairwise key a _ ih

/-- Inserting an article does not disturb the relative order of any one
key class: elements passed over strictly exceed the inserted key. -/
theorem insertByScoreDesc_filter_class (key : Article → Int) (a : Article) (s : Int) :
    ∀ l : List Article,
      (insertByScoreDesc key a l).filter (fun x => decide (key x = s)) =
        if key a = s then a :: l.filter (fun x => decide (key x = s))
        else l.filter (fun x => decide (key x = s)) := by
  intro l
  induction l with
  | nil => by_cases h : key a = s <;> simp [insertByScoreDesc, h]
  | cons b bs ih =>
    rw [insertByScoreDesc]
    by_cases hab : key a ≥ key b
    · rw [if_pos hab]
      by_cases ha : key a = s <;> simp [List.filter_cons, ha]
    · rw [if_neg hab]
      by_cases hb : key b = s
      · have ha : ¬ key a = s := by
          intro ha
          exact hab (le_of_eq (hb.trans ha.symm))
        simp [List.filter_cons, hb, ha, ih]
      · by_cases ha : key a = s <;> simp [List.filter_cons, hb, ha, ih]

/-- The sort preserves the relative order within every key class. -/
theorem sortByScoreDesc_filter_class (key : Article → Int) (s : Int) :
    ∀ l : List Article,
      (sortByScoreDesc key l).filter (fun x => decide (key x = s)) =
        l.filter (fun x => decide (key x = s)) := by
  intro l
  induction l with
  | nil => simp [sortByScoreDesc]
  | cons a rest ih =>
    rw [sortByScoreDesc, insertByScoreDesc_filter_class]
    by_cases h : key a = s <;> simp [List.filter_cons, h, ih]

/-- C6: with a non-empty sender-score mapping, the source-preference step
outputs exactly the input articles whose sender score exceeds −3
(a permutation of that filtering), in descending sender-score order, and
within every score class the relative input order is retained. -/
theorem ranker_hard_cutoff_stable (source_scores : List (String × Int))
    (hne : source_scores ≠ []) (articles : List Article) :
    (apply_vote_learning source_scores articles).Perm
      (articles.filter (fun a => decide (source_score source_scores a > -3))) ∧
    (apply_vote_learning source_scores articles).Pairwise
      (fun x y => source_score source_scores y ≤ source_score source_scores x) ∧
    ∀ s : Int,
      (apply_vote_learning source_scores articles).filter
          (fun a => decide (source_score source_scores a = s)) =
        articles.filter
          (fun a => decide (source_score source_scores a = s ∧ s > -3)) := by
  have hne' : ¬ source_scores.isEmpty := by
    simpa [List.isEmpty_iff] using hne
  unfold apply_vote_learning
  rw [if_neg hne']
  refine ⟨sortByScoreDesc_perm _ _, sortByScoreDesc_pairwise _ _, ?_⟩
  intro s
  rw [sortByScoreDesc_filter_class, List.filter_filter]
  refine List.filter_congr ?_
  intro a _
  by_cases h1 : source_score source_scores a = s
  · subst h1
    by_cases h2 : source_score source_scores a > -3 <;> simp [h2]
  · simp [h1]

/-- A concrete article from an upvoted sender, for check instances
(the spec's axios/nyt scenario). -/
def articleAxios : Article :=
  { url := "u3", title := "axios one", text := "", extraction_success := true,
    newsletter_sender := "newsletter@axios.com" }

/-- A concrete article from a heavily downvoted sender. -/
def articleNyt : Article :=
  { url := "u4", title := "nyt one", text := "", extraction_success := true,
    newsletter_sender := "newsletter@nyt.com" }

/-- The spec scenario's score mapping: nyt at −3 (hard-excluded), axios
at 2. -/
def scenarioScores : List (String × Int) :=
  [("newsletter@nyt.com", -3), ("newsletter@axios.com", 2)]

/-- Witness for C6 at the spec's scenario input. -/
theorem ranker_hard_cutoff_stable_witness :
    (apply_vote_learning scenarioScores [articleNyt, articleAxios]).Perm
      ([articleNyt, articleAxios].filter
        (fun a => decide (source_score scenarioScores a > -3))) ∧
    (apply_vote_learning scenarioScores [articleNyt, articleAxios]).filter
        (fun a => decide (source_score scenarioScores a = 2)) =
      [articleNyt, articleAxios].filter
        (fun a => decide (source_score scenarioScores a = 2 ∧ (2 : Int) > -3)) :=
  ⟨(ranker_hard_cutoff_stable scenarioScores (by decide) [articleNyt, articleAxios]).1,
   (ranker_hard_cutoff_stable scenarioScores (by decide) [articleNyt, articleAxios]).2.2 2⟩

end NewsDigest

namespace NewsDigest

/-! ### Junk/domain filter stage (`app.py` Step 3.5) -/

/-- One junk filter row from `get_junk_filters_with_type`: a pattern and
an optional `pattern_type` (the row may lack the type, which the stage
reads with default `title`). -/
structure JunkFilter where
  pattern : String
  pattern_type : Option String
deriving Repr, DecidableEq

/-- The per-pattern test of the Step 3.5 loop: a `domain` pattern matches
when it is a substring of the article URL's normalized domain; any other
(or missing, defaulting to `title`) type matches when the pattern is a
substring of the lowercased title. -/
def junk_matches (jf : JunkFilter) (a : Article) : Bool :=
  if jf.pattern_type.getD "title" = "domain" then
    strContains (normalized_domain a.url) jf.pattern
  else
    strContains (pyLower a.title) jf.pattern

/-- The inner `for jf in junk_filters` loop with its `break`: the first
matching pattern, if any. -/
def first_matching_filter (a : Article) : List JunkFilter → Option JunkFilter
  | [] => none
  | jf :: rest =>
    if junk_matches jf a then some jf else first_matching_filter a rest

/-- Step 3.5 of `process_and_send_digest`: when junk filters exist, keep
exactly the articles no filter matches, in order (the Python loop appends
each non-junk article to `filtered_articles`). -/
def junk_filter_stage (junk_filters : List JunkFilter)
    (articles : List Article) : List Article :=
  if junk_filters.isEmpty then articles
  else
    articles.foldl
      (fun filtered_articles a =>
        if (first_matching_filter a junk_filters).isSome then filtered_articles
        else filtered_articles ++ [a]) []

/-- The short-circuiting scan finds a match exactly when some pattern
matches. -/
theorem first_matching_filter_isSome (a : Article) :
    ∀ junk_filters : List JunkFilter,
      (first_matching_filter a junk_filters).isSome =
        junk_filters.any (fun jf => junk_matches jf a) := by
  intro junk_filters
  induction junk_filters with
  | nil => simp [first_matching_filter]
  | cons jf rest ih =>
    rw [first_matching_filter]
    by_cases h : junk_matches jf a <;> simp [h, ih]

/-- The append loop of Step 3.5 is the order-preserving filter. -/
theorem junk_loop_eq_filter (junk_filters : List JunkFilter) :
    ∀ (articles : List Article) (acc : List Article),
      articles.foldl
        (fun filtered_articles a =>
          if (first_matching_filter a junk_filters).isSome then filtered_articles
          else filtered_articles ++ [a]) acc =
      acc ++ articles.filter
        (fun a => !(junk_filters.any (fun jf => junk_matches jf a))) := by
  intro articles
  induction articles with
  | nil => intro acc; simp
  | cons a rest ih =>
    intro acc
    rw [List.foldl_cons, List.filter_cons]
    by_cases h : (first_matching_filter a junk_filters).isSome = true
    · have h' : junk_filters.any (fun jf => junk_matches jf a) = true := by
        rw [← first_matching_filter_isSome]; exact h
      simp only [h, if_true, h', Bool.not_true, ih]
      simp
    · have h' : junk_filters.any (fun jf => junk_matches jf a) = false := by
        rw [← first_matching_filter_isSome]
        exact Bool.not_eq_true _ ▸ h
      simp only [h, if_false, h', Bool.not_false, ih]
      simp

/-- C8: with a non-empty pattern list, the junk/domain filter stage keeps
exactly (and in order) the articles matched by zero patterns — an article
is rejected iff some pattern matches it, a `domain` pattern matching as
a substring of the URL's lowercased, `www.`-stripped host and a `title`
(or untyped) pattern as a substring of the lowercased title. -/
theorem junk_filter_stage_spec (junk_filters : List JunkFilter)
    (hne : junk_filters ≠ []) (articles : List Article) :
    junk_filter_stage junk_filters articles =
      articles.filter
        (fun a => !(junk_filters.any (fun jf => junk_matches jf a))) ∧
    (∀ a, a ∈ junk_filter_stage junk_filters articles ↔
       a ∈ articles ∧ ∀ jf ∈ junk_filters, junk_matches jf a = false) ∧
    (∀ jf a, junk_matches jf a = true ↔
       (jf.pattern_type.getD "title" = "domain" ∧
          jf.pattern.data <:+: (normalized_domain a.url).data) ∨
       (jf.pattern_type.getD "title" ≠ "domain" ∧
          jf.pattern.data <:+: (pyLower a.title).data)) := by
  have hne' : ¬ junk_filters.isEmpty := by
    simpa [List.isEmpty_iff] using hne
  have hmain : junk_filter_stage junk_filters articles =
      articles.filter
        (fun a => !(junk_filters.any (fun jf => junk_matches jf a))) := by
    unfold junk_filter_stage
    rw [if_neg hne']
    simpa using junk_loop_eq_filter junk_filters articles []
  refine ⟨hmain, ?_, ?_⟩
  · intro a
    rw [hmain, List.mem_filter]
    simp [List.any_eq_false]
  · intro jf a
    unfold junk_matches
    by_cases h : jf.pattern_type.getD "title" = "domain" <;>
      simp [h, strContains]

/-- The spec scenario's junk filter: block the domain `techcrunch.com`. -/
def techcrunchFilter : JunkFilter :=
  { pattern := "techcrunch.com", pattern_type := some "domain" }

/-- The spec scenario's article: hosted on `www.techcrunch.com`. -/
def articleTechcrunch : Article :=
  { url := "https://www.techcrunch.com/2024/x", title := "Some Startup News Today",
    text := "", extraction_success := true }

/-- Witness for C8 at the spec's techcrunch scenario: the domain pattern
matches the normalized host, so the article is rejected. -/
theorem junk_filter_stage_spec_witness :
    junk_filter_stage [techcrunchFilter] [articleTechcrunch] =
      [articleTechcrunch].filter
        (fun a => !([techcrunchFilter].any (fun jf => junk_matches jf a))) ∧
    (junk_matches techcrunchFilter articleTechcrunch = true ↔
       (techcrunchFilter.pattern_type.getD "title" = "domain" ∧
          techcrunchFilter.pattern.data <:+:
            (normalized_domain articleTechcrunch.url).data) ∨
       (techcrunchFilter.pattern_type.getD "title" ≠ "domain" ∧
          techcrunchFilter.pattern.data <:+:
            (pyLower articleTechcrunch.title).data)) :=
  ⟨(junk_filter_stage_spec [techcrunchFilter] (by decide) [articleTechcrunch]).1,
   (junk_filter_stage_spec [techcrunchFilter] (by decide) [articleTechcrunch]).2.2
     techcrunchFilter articleTechcrunch⟩

end NewsDigest

namespace NewsDigest

/-! ### Article extraction and filtering
(`ArticleProcessor.extract_articles_from_newsletters`) -/

/-- The fixed boilerplate-title marker list `junk_title_patterns` from
`extract_articles_from_newsletters`. -/
def junk_title_patterns : List String :=
  ["contact us", "privacy policy", "cookie notice", "cookie policy",
   "sign in", "log in", "login", "register", "registration",
   "linkedin", "facebook", "instagram", "twitter", "youtube",
   "app store", "google play", "terms of use", "terms and conditions",
   "subscribe", "unsubscribe", "join now", "newsletter",
   "explore hbr", "about hbr", "follow hbr", "manage my account",
   "view all", "see all", "browse", "home page",
   "advertising", "partnerships", "solutions for", "data & visuals"]

/-- The filter decision applied to each fetched record: keep it iff
extraction succeeded, no boilerplate marker occurs in the lowercased
title, and the title has at least 15 characters. -/
def article_filter_accepts (article_data : Article) : Bool :=
  article_data.extraction_success &&
  !(junk_title_patterns.any
      (fun pat => strContains (pyLower article_data.title) pat)) &&
  !(decide (article_data.title.length < 15))

/-- Attach the originating newsletter's sender and subject to an accepted
article. -/
def tagArticle (newsletter : Newsletter) (article_data : Article) : Article :=
  { article_data with
    newsletter_sender := newsletter.sender
    newsletter_subject := newsletter.subject }

/-- One step of the URL loop in `extract_articles_from_newsletters`:
skip already-seen URLs, otherwise record the URL as seen, fetch it, and
append the tagged record when the filter accepts it.  The state is
`(seen_urls, articles)`. -/
def extractLoopStep (fetch : String → Article) (newsletter : Newsletter)
    (st : List String × List Article) (url : String) :
    List String × List Article :=
  if url ∈ st.1 then st
  else
    let seen := url :: st.1
    let article_data := fetch url
    if article_filter_accepts article_data then
      (seen, st.2 ++ [tagArticle newsletter article_data])
    else (seen, st.2)

/-- `ArticleProcessor.extract_articles_from_newsletters`, with the
network fetch abstracted as `fetch` (what `extract_article_content`
returns for each URL). -/
def extract_articles_from_newsletters (fetch : String → Article)
    (newsletters : List Newsletter) : List Article :=
  (newsletters.foldl
    (fun st newsletter => newsletter.urls.foldl (extractLoopStep fetch newsletter) st)
    ([], [])).2

/-- All `(newsletter, url)` pairs in discovery order. -/
def urlPairs (newsletters : List Newsletter) : List (Newsletter × String) :=
  (newsletters.map (fun nl => nl.urls.map (fun u => (nl, u)))).flatten

/-- Keep only the first occurrence of each URL (later pairs with an
already-seen URL are dropped, whatever their newsletter). -/
def keepFirstUrl (seen : List String) : List (Newsletter × String) → List (Newsletter × String)
  | [] => []
  | p :: rest =>
    if p.2 ∈ seen then keepFirstUrl seen rest
    else p :: keepFirstUrl (p.2 :: seen) rest

/-- The nested newsletter/url loops traverse exactly the flattened pair
list. -/
theorem extract_foldl_pairs (fetch : String → Article) :
    ∀ (newsletters : List Newsletter) (st : List String × List Article),
      newsletters.foldl
        (fun st newsletter =>
          newsletter.urls.foldl (extractLoopStep fetch newsletter) st) st =
      (urlPairs newsletters).foldl
        (fun st p => extractLoopStep fetch p.1 st p.2) st := by
  intro newsletters
  induction newsletters with
  | nil => intro st; simp [urlPairs]
  | cons nl rest ih =>
    intro st
    rw [List.foldl_cons]
    have hpairs : urlPairs (nl :: rest) =
        nl.urls.map (fun u => (nl, u)) ++ urlPairs rest := by
      simp [urlPairs]
    rw [hpairs, List.foldl_append, List.foldl_map]
    exact ih _

/-- Closed form of the pair loop: the articles appended are the tagged
fetches of the first-occurrence pairs that pass the filter. -/
theorem extract_pair_loop_closed (fetch : String → Article) :
    ∀ (pairs : List (Newsletter × String)) (seen : List String)
      (acc : List Article),
      (pairs.foldl (fun st p => extractLoopStep fetch p.1 st p.2) (seen, acc)).2 =
        acc ++ ((keepFirstUrl seen pairs).filter
            (fun p => article_filter_accepts (fetch p.2))).map
          (fun p => tagArticle p.1 (fetch p.2)) := by
  intro pairs
  induction pairs with
  | nil => intro seen acc; simp [keepFirstUrl]
  | cons p rest ih =>
    intro seen acc
    rw [List.foldl_cons, keepFirstUrl]
    by_cases hseen : p.2 ∈ seen
    · rw [if_pos hseen]
      have hstep : extractLoopStep fetch p.1 (seen, acc) p.2 = (seen, acc) := by
        unfold extractLoopStep
        rw [if_pos hseen]
      rw [hstep]
      exact ih seen acc
    · rw [if_neg hseen]
      by_cases hacc : article_filter_accepts (fetch p.2) = true
      · have hstep : extractLoopStep fetch p.1 (seen, acc) p.2 =
            (p.2 :: seen, acc ++ [tagArticle p.1 (fetch p.2)]) := by
          unfold extractLoopStep
          rw [if_neg hseen]
          simp only [hacc, if_true]
        rw [hstep, ih (p.2 :: seen) (acc ++ [tagArticle p.1 (fetch p.2)]),
          List.filter_cons, hacc]
        simp
      · have hstep : extractLoopStep fetch p.1 (seen, acc) p.2 =
            (p.2 :: seen, acc) := by
          unfold extractLoopStep
          rw [if_neg hseen]
          simp only [hacc, if_false]
          simp [Bool.not_eq_true] at hacc
          simp [hacc]
        rw [hstep, ih (p.2 :: seen) acc, List.filter_cons]
        simp only [hacc]
        simp [Bool.not_eq_true] at hacc
        simp [hacc]

/-- First-occurrence pairs are among the original pairs. -/
theorem keepFirstUrl_subset :
    ∀ (pairs : List (Newsletter × String)) (seen : List String),
      keepFirstUrl seen pairs ⊆ pairs := by
  intro pairs
  induction pairs with
  | nil => intro seen; simp [keepFirstUrl]
  | cons p rest ih =>
    intro seen
    rw [keepFirstUrl]
    by_cases h : p.2 ∈ seen
    · rw [if_pos h]
      exact (ih seen).trans (List.subset_cons_self p rest)
    · rw [if_neg h]
      exact List.cons_subset_cons p (ih (p.2 :: seen))

end NewsDigest

namespace NewsDigest

/-- C9: `extract_articles_from_newsletters` returns, in discovery order,
the tagged fetch results of the first occurrence of each URL that pass
the article filter, where the filter accepts a fetched record exactly
when extraction succeeded, no boilerplate marker occurs in the lowercased
title, and the title is at least 15 characters; every returned article is
tagged with its originating newsletter's sender and subject. -/
theorem extract_articles_filter_spec (fetch : String → Article)
    (newsletters : List Newsletter) :
    extract_articles_from_newsletters fetch newsletters =
      ((keepFirstUrl [] (urlPairs newsletters)).filter
          (fun p => article_filter_accepts (fetch p.2))).map
        (fun p => tagArticle p.1 (fetch p.2)) ∧
    (∀ article_data : Article,
       article_filter_accepts article_data = true ↔
         article_data.extraction_success = true ∧
         (∀ pat ∈ junk_title_patterns,
            strContains (pyLower article_data.title) pat = false) ∧
         15 ≤ article_data.title.length) ∧
    (∀ art ∈ extract_articles_from_newsletters fetch newsletters,
       ∃ nl ∈ newsletters, ∃ u ∈ nl.urls,
         art = tagArticle nl (fetch u) ∧
         art.newsletter_sender = nl.sender ∧
         art.newsletter_subject = nl.subject) := by
  have hmain : extract_articles_from_newsletters fetch newsletters =
      ((keepFirstUrl [] (urlPairs newsletters)).filter
          (fun p => article_filter_accepts (fetch p.2))).map
        (fun p => tagArticle p.1 (fetch p.2)) := by
    unfold extract_articles_from_newsletters
    rw [extract_foldl_pairs]
    simpa using extract_pair_loop_closed fetch (urlPairs newsletters) [] []
  refine ⟨hmain, ?_, ?_⟩
  · intro article_data
    unfold article_filter_accepts
    simp [Bool.and_eq_true, List.any_eq_false, Nat.not_lt, and_assoc]
  · intro art hart
    rw [hmain] at hart
    obtain ⟨p, hp, rfl⟩ := List.mem_map.mp hart
    have hp' := List.mem_filter.mp hp
    have hpairs : p ∈ urlPairs newsletters := keepFirstUrl_subset _ [] hp'.1
    simp only [urlPairs, List.mem_join, List.mem_map] at hpairs
    obtain ⟨l, ⟨nl, hnl, rfl⟩, hpl⟩ := hpairs
    obtain ⟨u, hu, rfl⟩ := List.mem_map.mp hpl
    exact ⟨nl, hnl, u, hu, rfl, rfl, rfl⟩

/-- A fetched record that passes every filter check. -/
def goodArticleRaw : Article :=
  { url := "http://x/good", title := "Quantum Computers Break Records",
    text := "body", extraction_success := true }

/-- A fetched record the spec scenario rejects: its title matches the
boilerplate marker `subscribe` despite being over 15 characters. -/
def badArticleRaw : Article :=
  { url := "http://x/bad", title := "Subscribe to our Newsletter",
    text := "body", extraction_success := true }

/-- A concrete fetch function for check instances. -/
def fetchForTests : String → Article :=
  fun u => if u = "http://x/good" then goodArticleRaw else badArticleRaw

/-- A concrete newsletter for check instances. -/
def newsletterForTests : Newsletter :=
  { sender := "s@x.com", subject := "Daily", urls := ["http://x/good", "http://x/bad"] }

/-- Witness for C9 at a concrete input. -/
theorem extract_articles_filter_spec_witness :
    extract_articles_from_newsletters fetchForTests [newsletterForTests] =
      ((keepFirstUrl [] (urlPairs [newsletterForTests])).filter
          (fun p => article_filter_accepts (fetchForTests p.2))).map
        (fun p => tagArticle p.1 (fetchForTests p.2)) ∧
    (∃ nl ∈ [newsletterForTests], ∃ u ∈ nl.urls,
       tagArticle newsletterForTests goodArticleRaw = tagArticle nl (fetchForTests u) ∧
       (tagArticle newsletterForTests goodArticleRaw).newsletter_sender = nl.sender ∧
       (tagArticle newsletterForTests goodArticleRaw).newsletter_subject = nl.subject) :=
  ⟨(extract_articles_filter_spec fetchForTests [newsletterForTests]).1,
   (extract_articles_filter_spec fetchForTests [newsletterForTests]).2.2
     (tagArticle newsletterForTests goodArticleRaw) (by decide)⟩

end NewsDigest

namespace NewsDigest

/-! ### Categorizer (`ArticleProcessor.categorize_articles`) -/

/-- The categories of the `categories` dict, in declaration order. -/
def category_names : List String :=
  ["Politics", "Business & Economy", "Technology", "Science & Health",
   "World News", "Sports", "Culture & Entertainment", "Other"]

/-- The `category_keywords` table, in declaration order. -/
def category_keywords : List (String × List String) :=
  [("Politics",
    ["election", "congress", "senate", "president", "governor", "political",
     "vote", "campaign", "democrat", "republican"]),
   ("Business & Economy",
    ["market", "stock", "economy", "business", "financial", "company",
     "revenue", "profit", "trade", "economic"]),
   ("Technology",
    ["tech", "ai", "software", "app", "digital", "cyber", "computer",
     "startup", "innovation", "data"]),
   ("Science & Health",
    ["study", "research", "health", "medical", "science", "climate",
     "disease", "vaccine", "treatment", "environment"]),
   ("World News",
    ["international", "global", "country", "nation", "foreign", "embassy",
     "war", "conflict", "treaty"]),
   ("Sports",
    ["game", "team", "player", "sport", "championship", "league", "score",
     "match", "tournament"]),
   ("Culture & Entertainment",
    ["film", "movie", "music", "art", "book", "culture", "entertainment",
     "celebrity", "show", "theater"])]

/-- `text_to_check`: the lowercased title plus first 500 characters of the
body text. -/
def article_scan_text (a : Article) : String :=
  pyLower (a.title ++ " " ++ pyTake a.text 500)

/-- A category's score: how many of its keywords occur as substrings of
the scan text (`sum(1 for keyword in keywords if keyword in text)`). -/
def category_score (keywords : List String) (text_to_check : String) : Nat :=
  keywords.countP (fun kw => strContains text_to_check kw)

/-- The `for category, keywords in category_keywords.items()` loop with
its strict-improvement update of `(max_score, best_category)`. -/
def best_category_loop (text_to_check : String) :
    List (String × List String) → Nat × String → Nat × String
  | [], acc => acc
  | ck :: rest, acc =>
    best_category_loop text_to_check rest
      (if category_score ck.2 text_to_check > acc.1
       then (category_score ck.2 text_to_check, ck.1) else acc)

/-- The bucket an article is appended to: `best_category` when
`max_score > 0`, else `Other`. -/
def assigned_category (a : Article) : String :=
  let r := best_category_loop (article_scan_text a) category_keywords (0, "Other")
  if r.1 > 0 then r.2 else "Other"

/-- Append an article to the bucket of the given category — the
`categories[best_category].append(article)` step over the association
list of buckets. -/
def add_to_bucket (buckets : List (String × List Article)) (c : String)
    (a : Article) : List (String × List Article) :=
  buckets.map (fun b => if b.1 = c then (b.1, b.2 ++ [a]) else b)

/-- `ArticleProcessor.categorize_articles`: initialize one empty bucket
per category, append every article to its assigned bucket, and drop the
empty buckets. -/
def categorize_articles (articles : List Article) :
    List (String × List Article) :=
  ((articles.foldl
      (fun buckets a => add_to_bucket buckets (assigned_category a) a)
      (category_names.map (fun c => (c, ([] : List Article))))).filter
    (fun b => !b.2.isEmpty))

/-- The maximum category score over a keyword table. -/
def maxScoreOf (text_to_check : String) (l : List (String × List String)) : Nat :=
  l.foldr (fun ck m => max (category_score ck.2 text_to_check) m) 0

/-- `maxScoreOf` on a cons. -/
theorem maxScoreOf_cons (t : String) (ck : String × List String)
    (rest : List (String × List String)) :
    maxScoreOf t (ck :: rest) =
      max (category_score ck.2 t) (maxScoreOf t rest) := rfl

/-- The loop never decreases the best score. -/
theorem best_category_loop_mono (t : String) :
    ∀ (l : List (String × List String)) (acc : Nat × String),
      acc.1 ≤ (best_category_loop t l acc).1 := by
  intro l
  induction l with
  | nil => intro acc; simp [best_category_loop]
  | cons ck rest ih =>
    intro acc
    rw [best_category_loop]
    by_cases h : category_score ck.2 t > acc.1
    · rw [if_pos h]
      exact le_of_lt (lt_of_lt_of_le h (ih (category_score ck.2 t, ck.1)))
    · rw [if_neg h]
      exact ih acc

/-- If the best score does not move, neither does the best category. -/
theorem best_category_loop_stay (t : String) :
    ∀ (l : List (String × List String)) (acc : Nat × String),
      (best_category_loop t l acc).1 = acc.1 →
      best_category_loop t l acc = acc := by
  intro l
  induction l with
  | nil => intro acc _; rfl
  | cons ck rest ih =>
    intro acc heq
    rw [best_category_loop] at heq ⊢
    by_cases h : category_score ck.2 t > acc.1
    · rw [if_pos h] at heq
      have hmono := best_category_loop_mono t rest (category_score ck.2 t, ck.1)
      rw [heq] at hmono
      exact absurd (lt_of_lt_of_le h hmono) (lt_irrefl _)
    · rw [if_neg h] at heq ⊢
      exact ih acc heq

/-- The final best score is the maximum of the accumulator's score and
all category scores. -/
theorem best_category_loop_fst (t : String) :
    ∀ (l : List (String × List String)) (acc : Nat × String),
      (best_category_loop t l acc).1 = max acc.1 (maxScoreOf t l) := by
  intro l
  induction l with
  | nil => intro acc; simp [best_category_loop, maxScoreOf]
  | cons ck rest ih =>
    intro acc
    rw [best_category_loop, maxScoreOf_cons]
    by_cases h : category_score ck.2 t > acc.1
    · rw [if_pos h, ih (category_score ck.2 t, ck.1)]
      have hle : acc.1 ≤ max (category_score ck.2 t) (maxScoreOf t rest) :=
        le_trans (le_of_lt h) (le_max_left _ _)
      show max (category_score ck.2 t) (maxScoreOf t rest) =
        max acc.1 (max (category_score ck.2 t) (maxScoreOf t rest))
      exact (max_eq_right hle).symm
    · rw [if_neg h, ih acc, ← max_assoc, max_eq_left (le_of_not_lt h)]

/-- When some category beats the accumulator, the final best category is
the first category attaining the final best score: every earlier category
scores strictly less. -/
theorem best_category_loop_first_argmax (t : String) :
    ∀ (l : List (String × List String)) (acc : Nat × String),
      acc.1 < maxScoreOf t l →
      ∃ l1 ck l2, l = l1 ++ ck :: l2 ∧
        (best_category_loop t l acc).2 = ck.1 ∧
        category_score ck.2 t = (best_category_loop t l acc).1 ∧
        ∀ ck' ∈ l1, category_score ck'.2 t < (best_category_loop t l acc).1 := by
  intro l
  induction l with
  | nil =>
    intro acc h
    simp [maxScoreOf] at h
  | cons ck rest ih =>
    intro acc hlt
    rw [maxScoreOf_cons] at hlt
    rw [best_category_loop]
    by_cases h : category_score ck.2 t > acc.1
    · rw [if_pos h]
      by_cases hrest : category_score ck.2 t < maxScoreOf t rest
      · obtain ⟨l1, ck', l2, hdec, hsnd, hsc, hless⟩ :=
          ih (category_score ck.2 t, ck.1) hrest
        refine ⟨ck :: l1, ck', l2, by rw [hdec, List.cons_append], hsnd, hsc, ?_⟩
        intro ck'' hck''
        rcases List.mem_cons.mp hck'' with rfl | hck''
        · rw [best_category_loop_fst t rest (category_score ck''.2 t, ck''.1)]
          exact lt_max_of_lt_right hrest
        · exact hless ck'' hck''
      · have hstay1 : (best_category_loop t rest
            (category_score ck.2 t, ck.1)).1 = category_score ck.2 t := by
          rw [best_category_loop_fst t rest (category_score ck.2 t, ck.1)]
          exact max_eq_left (le_of_not_lt hrest)
        have hstay := best_category_loop_stay t rest _ hstay1
        exact ⟨[], ck, rest, rfl, by rw [hstay], by rw [hstay],
          fun ck' hck' => absurd hck' (List.not_mem_nil ck')⟩
    · rw [if_neg h]
      have hle : category_score ck.2 t ≤ acc.1 := le_of_not_lt h
      have hrest : acc.1 < maxScoreOf t rest := by
        rcases le_or_lt (maxScoreOf t rest) (category_score ck.2 t) with hc | hc
        · rw [max_eq_left hc] at hlt; omega
        · rw [max_eq_right (le_of_lt hc)] at hlt; exact hlt
      obtain ⟨l1, ck', l2, hdec, hsnd, hsc, hless⟩ := ih acc hrest
      refine ⟨ck :: l1, ck', l2, by rw [hdec, List.cons_append], hsnd, hsc, ?_⟩
      intro ck'' hck''
      rcases List.mem_cons.mp hck'' with rfl | hck''
      · refine lt_of_le_of_lt hle (lt_of_lt_of_le hrest ?_)
        rw [best_category_loop_fst t rest acc]
        exact le_max_right _ _
      · exact hless ck'' hck''

end NewsDigest

namespace NewsDigest

/-- Closed form of the bucket-filling loop: every bucket ends as its
start contents followed by the articles assigned to its category, in
input order. -/
theorem categorize_fold_closed :
    ∀ (articles : List Article) (buckets : List (String × List Article)),
      articles.foldl
        (fun bs a => add_to_bucket bs (assigned_category a) a) buckets =
      buckets.map (fun b =>
        (b.1, b.2 ++ articles.filter (fun a => decide (assigned_category a = b.1)))) := by
  intro articles
  induction articles with
  | nil =>
    intro buckets
    simp
  | cons a rest ih =>
    intro buckets
    rw [List.foldl_cons, ih]
    unfold add_to_bucket
    rw [List.map_map]
    refine List.map_congr_left ?_
    intro b _
    simp only [Function.comp]
    by_cases hb : b.1 = assigned_category a
    · simp only [if_pos hb]
      rw [List.filter_cons]
      have hd : decide (assigned_category a = b.1) = true := by simp [hb]
      rw [hd]
      simp
    · simp only [if_neg hb]
      rw [List.filter_cons]
      have hd : decide (assigned_category a = b.1) = false := by
        simp only [decide_eq_false_iff_not]
        exact fun he => hb he.symm
      rw [hd]
      simp

/-- `categorize_articles` in closed form: one bucket per category name in
declaration order, holding the articles assigned to it in input order,
with empty buckets dropped. -/
theorem categorize_articles_eq (articles : List Article) :
    categorize_articles articles =
      (category_names.map (fun c =>
        (c, articles.filter (fun a => decide (assigned_category a = c))))).filter
        (fun b => !b.2.isEmpty) := by
  unfold categorize_articles
  rw [categorize_fold_closed, List.map_map]
  rfl

/-- Every article's assigned category is one of the declared names. -/
theorem assigned_category_mem (a : Article) :
    assigned_category a ∈ category_names := by
  unfold assigned_category
  by_cases h : (best_category_loop (article_scan_text a)
      category_keywords (0, "Other")).1 > 0
  · rw [if_pos h]
    have hlt : (0 : Nat) <
        maxScoreOf (article_scan_text a) category_keywords := by
      have := best_category_loop_fst (article_scan_text a) category_keywords
        (0, "Other")
      rw [this] at h
      simpa using h
    obtain ⟨l1, ck, l2, hdec, hsnd, _, _⟩ :=
      best_category_loop_first_argmax (article_scan_text a)
        category_keywords (0, "Other") (by simpa using hlt)
    rw [hsnd]
    have hck : ck ∈ category_keywords := by
      rw [hdec]
      exact List.mem_append_right l1 (List.mem_cons_self ck l2)
    have hall : ∀ ck' ∈ category_keywords, ck'.1 ∈ category_names := by
      decide
    exact hall ck hck
  · rw [if_neg h]
    decide

/-- Concatenating per-category filters of distinct covering keys is a
permutation of the original list. -/
theorem join_class_filters_perm :
    ∀ (articles : List Article) (names : List String), names.Nodup →
      (∀ a ∈ articles, assigned_category a ∈ names) →
      ((names.map (fun c =>
          articles.filter (fun a => decide (assigned_category a = c)))).flatten).Perm
        articles := by
  intro articles
  induction articles with
  | nil =>
    intro names _ _
    simp
  | cons a rest ih =>
    intro names hnd hmem
    have hrest : ∀ x ∈ rest, assigned_category x ∈ names :=
      fun x hx => hmem x (List.mem_cons_of_mem a hx)
    have ha : assigned_category a ∈ names := hmem a (List.mem_cons_self a rest)
    have key : ∀ (ns : List String), ns.Nodup → assigned_category a ∈ ns →
        ((ns.map (fun c =>
            (a :: rest).filter (fun x => decide (assigned_category x = c)))).flatten).Perm
          (a :: (ns.map (fun c =>
            rest.filter (fun x => decide (assigned_category x = c)))).flatten) := by
      intro ns
      induction ns with
      | nil =>
        intro _ hmem'
        exact absurd hmem' (List.not_mem_nil _)
      | cons c ns' ihn =>
        intro hnd' hmem'
        rw [List.map_cons, List.map_cons, List.flatten_cons, List.flatten_cons]
        by_cases hc : assigned_category a = c
        · have hnotin : assigned_category a ∉ ns' :=
            hc ▸ (List.nodup_cons.mp hnd').1
          have hrestbuckets : ns'.map (fun c' =>
              (a :: rest).filter (fun x => decide (assigned_category x = c'))) =
              ns'.map (fun c' =>
                rest.filter (fun x => decide (assigned_category x = c'))) := by
            refine List.map_congr_left ?_
            intro c' hc'
            rw [List.filter_cons]
            have hne : decide (assigned_category a = c') = false := by
              simp only [decide_eq_false_iff_not]
              exact fun he => hnotin (he ▸ hc')
            rw [hne]
            simp
          rw [hrestbuckets, List.filter_cons]
          have hyes : decide (assigned_category a = c) = true := by simp [hc]
          rw [hyes]
          simp [List.append_assoc]
        · have hmem'' : assigned_category a ∈ ns' := by
            rcases List.mem_cons.mp hmem' with h | h
            · exact absurd h hc
            · exact h
          rw [List.filter_cons]
          have hno : decide (assigned_category a = c) = false := by simp [hc]
          rw [hno]
          simp only [Bool.false_eq_true, if_false]
          have hperm := ihn (List.nodup_cons.mp hnd').2 hmem''
          refine (hperm.append_left
            (rest.filter (fun x => decide (assigned_category x = c)))).trans ?_
          exact List.perm_middle
    exact (key names hnd ha).trans ((ih names hnd hrest).cons a)

/-- Dropping empty buckets does not change the concatenation of bucket
contents. -/
theorem join_nonempty_buckets :
    ∀ bs : List (String × List Article),
      ((bs.filter (fun b => !b.2.isEmpty)).map Prod.snd).flatten =
        (bs.map Prod.snd).flatten := by
  intro bs
  induction bs with
  | nil => simp
  | cons b bs' ih =>
    rw [List.filter_cons]
    by_cases h : b.2.isEmpty = true
    · have : (!b.2.isEmpty) = false := by simp [h]
      rw [this]
      have hb : b.2 = [] := by simpa [List.isEmpty_iff] using h
      simp [ih, hb]
    · have : (!b.2.isEmpty) = true := by simp [Bool.not_eq_true] at h; simp [h]
      rw [this]
      simp [ih]

end NewsDigest

namespace NewsDigest

/-- C7: `categorize_articles` partitions its input — the buckets'
contents concatenate to a permutation of the input, every input article
lies in exactly one returned bucket, no returned bucket is empty, each
bucket holds exactly the articles assigned to its category in input
order — and each article is assigned to the first category in
declaration order reaching the maximum keyword score over the lowercased
title plus first 500 characters of text, or to `Other` when every
category scores zero. -/
theorem categorize_articles_spec (articles : List Article) :
    (((categorize_articles articles).map Prod.snd).flatten).Perm articles ∧
    (∀ a ∈ articles, ∃! b, b ∈ categorize_articles articles ∧ a ∈ b.2) ∧
    (∀ b ∈ categorize_articles articles, b.2 ≠ []) ∧
    (∀ b ∈ categorize_articles articles,
       b.2 = articles.filter (fun a => decide (assigned_category a = b.1))) ∧
    (∀ a : Article,
       (maxScoreOf (article_scan_text a) category_keywords = 0 →
          assigned_category a = "Other") ∧
       (0 < maxScoreOf (article_scan_text a) category_keywords →
          ∃ l1 ck l2, category_keywords = l1 ++ ck :: l2 ∧
            assigned_category a = ck.1 ∧
            category_score ck.2 (article_scan_text a) =
              maxScoreOf (article_scan_text a) category_keywords ∧
            ∀ ck' ∈ l1, category_score ck'.2 (article_scan_text a) <
              maxScoreOf (article_scan_text a) category_keywords)) := by
  refine ⟨?_, ?_, ?_, ?_, ?_⟩
  · rw [categorize_articles_eq, join_nonempty_buckets, List.map_map]
    exact join_class_filters_perm articles category_names (by decide)
      (fun a _ => assigned_category_mem a)
  · intro a ha
    refine ⟨(assigned_category a,
        articles.filter (fun x => decide (assigned_category x = assigned_category a))),
      ⟨?_, ?_⟩, ?_⟩
    · rw [categorize_articles_eq]
      refine List.mem_filter.mpr ⟨?_, ?_⟩
      · exact List.mem_map.mpr ⟨assigned_category a, assigned_category_mem a, rfl⟩
      · have hain : a ∈ articles.filter
            (fun x => decide (assigned_category x = assigned_category a)) :=
          List.mem_filter.mpr ⟨ha, by simp⟩
        have hne := List.ne_nil_of_mem hain
        simpa [List.isEmpty_iff] using hne
    · exact List.mem_filter.mpr ⟨ha, by simp⟩
    · rintro b ⟨hb, hab⟩
      rw [categorize_articles_eq] at hb
      obtain ⟨c', _, rfl⟩ := List.mem_map.mp (List.mem_filter.mp hb).1
      have hca : assigned_category a = c' :=
        of_decide_eq_true (List.mem_filter.mp hab).2
      subst hca
      rfl
  · intro b hb
    rw [categorize_articles_eq] at hb
    have hne := (List.mem_filter.mp hb).2
    intro hnil
    rw [hnil] at hne
    simp at hne
  · intro b hb
    rw [categorize_articles_eq] at hb
    obtain ⟨c', _, rfl⟩ := List.mem_map.mp (List.mem_filter.mp hb).1
    rfl
  · intro a
    constructor
    · intro h0
      have hfst : (best_category_loop (article_scan_text a)
          category_keywords (0, "Other")).1 = 0 := by
        rw [best_category_loop_fst]
        simp [h0]
      have hneg : ¬ ((best_category_loop (article_scan_text a)
          category_keywords (0, "Other")).1 > 0) := by
        rw [hfst]
        exact lt_irrefl 0
      simp [assigned_category, hneg]
    · intro hpos
      have hlt : ((0 : Nat), "Other").1 <
          maxScoreOf (article_scan_text a) category_keywords := by
        simpa using hpos
      obtain ⟨l1, ck, l2, hdec, hsnd, hsc, hless⟩ :=
        best_category_loop_first_argmax (article_scan_text a)
          category_keywords (0, "Other") hlt
      have hfst : (best_category_loop (article_scan_text a)
          category_keywords (0, "Other")).1 =
          maxScoreOf (article_scan_text a) category_keywords := by
        rw [best_category_loop_fst]
        simp
      have hpos' : (best_category_loop (article_scan_text a)
          category_keywords (0, "Other")).1 > 0 := by
        rw [hfst]
        exact hpos
      have hassigned : assigned_category a = ck.1 := by
        simp only [assigned_category]
        rw [if_pos hpos']
        exact hsnd
      refine ⟨l1, ck, l2, hdec, hassigned, hsc.trans hfst, ?_⟩
      intro ck' hck'
      rw [← hfst]
      exact hless ck' hck'

/-- Witness for C7 at a concrete input: `articleA` matches no category
keyword, so it lands alone in the `Other` bucket. -/
theorem categorize_articles_spec_witness :
    (((categorize_articles [articleA]).map Prod.snd).flatten).Perm [articleA] ∧
    (∃! b, b ∈ categorize_articles [articleA] ∧ articleA ∈ b.2) ∧
    assigned_category articleA = "Other" :=
  ⟨(categorize_articles_spec [articleA]).1,
   (categorize_articles_spec [articleA]).2.1 articleA (by decide),
   ((categorize_articles_spec [articleA]).2.2.2.2 articleA).1 (by decide)⟩

end NewsDigest
